import Mathlib

/-!
Verification of the staged file-relay pipeline of
`copy_new_usb_files_v2.py` (poller) and `upload_new_files_v2.py`
(forwarder), as a shallow embedding in Lean.

Modelling conventions:
* A directory tree is `FSTree`; a directory holds a list of named
  entries in `os.scandir` order.  Timestamps (`st_mtime`, `st_ctime`)
  are integers, file contents are byte lists.
* Python's `list.sort(key=...)` is a stable sort; since a stable sort
  is uniquely determined by the key order and the input order, it is
  embedded as `List.insertionSort` with the corresponding non-strict
  relation (earlier elements win ties, as in CPython).
* Functions that touch the real filesystem are embedded as pure
  functions from the tree (and an environment of injected outcomes for
  the fallible calls: mount, umount, per-file copy) to the new tree
  plus an event trace.  A Python exception is modelled by an early
  return carrying `false` in the "completed without exception" flag.
-/

/-- A filesystem node: a regular file (with `st_mtime`, `st_ctime` and
contents) or a directory (with `st_mtime` and its `os.scandir` entry
list, each entry a name paired with a node). -/
inductive FSTree where
  | file (mtime ctime : Int) (content : List Nat)
  | dir (mtime : Int) (entries : List (String × FSTree))

/-- `st_mtime` of a node (`d.stat().st_mtime` in the scripts). -/
def FSTree.mtimeOf : FSTree → Int
  | .file m _ _ => m
  | .dir m _ => m

/-- `item.is_dir()` of `os.scandir`. -/
def FSTree.isDir : FSTree → Bool
  | .dir _ _ => true
  | .file _ _ _ => false

/-- The per-item test of `get_files_since_point_in_time`:
`item.is_file() and (max(item.stat().st_mtime, item.stat().st_ctime) >
point_in_time)`. -/
def FSTree.qualifies (t : FSTree) (point_in_time : Int) : Bool :=
  match t with
  | .file m c _ => max m c > point_in_time
  | .dir _ _ => false

/-- The key order of `directories.sort(key=lambda d: d.stat().st_mtime,
reverse=True)`: newer directory first, ties keeping scandir order
(CPython's sort is stable). -/
def dir_mtime_ge (a b : String × FSTree) : Prop :=
  b.2.mtimeOf ≤ a.2.mtimeOf

instance : DecidableRel dir_mtime_ge := fun a b => by
  unfold dir_mtime_ge
  infer_instance

/-- Embedding of `get_files_since_point_in_time(start_dir,
point_in_time, newest_dir_count)`: collect the qualifying files of the
current directory in scandir order, sort the subdirectories by mtime
descending (stably), and recurse into the first `newest_dir_count` of
them, extending the result list.  Paths are returned as component
lists relative to `start_dir`.  The source performs only
`os.scandir`/`stat` reads here, so the embedding is a pure function of
the tree. -/
def get_files_since_point_in_time (t : FSTree) (point_in_time : Int)
    (newest_dir_count : Nat) : List (List String) :=
  match t with
  | .file _ _ _ => []
  | .dir _ es =>
    let all_files := (es.filter (fun e => e.2.qualifies point_in_time)).map
      (fun e => [e.1])
    let directories := (es.filter (fun e => e.2.isDir)).insertionSort dir_mtime_ge
    let rest := ((directories.take newest_dir_count).attach.map
      (fun e => (get_files_since_point_in_time e.1.2 point_in_time
        newest_dir_count).map (fun p => e.1.1 :: p)))
    all_files ++ rest.flatten
termination_by sizeOf t
decreasing_by
  rename_i es
  obtain ⟨⟨name, sub⟩, hmem⟩ := e
  have h1 := List.mem_of_mem_take hmem
  have h2 := (List.perm_insertionSort dir_mtime_ge _).mem_iff.mp h1
  have h3 := List.mem_of_mem_filter h2
  have h4 := List.sizeOf_lt_of_mem h3
  simp only [Prod.mk.sizeOf_spec, FSTree.dir.sizeOf_spec] at h4 ⊢
  omega

/-- The specification-side reading of the scanner's reach ("the files
reachable by recursing, at each directory level, into only the d
most-recently-modified subdirectories, ordered by directory mtime
descending"), with no time filter: every reachable file together with
its `(mtime, ctime)`.  Written from the spec's words, to be compared
with `get_files_since_point_in_time`. -/
def spec_reachable_files (t : FSTree) (newest_dir_count : Nat) :
    List (List String × Int × Int) :=
  match t with
  | .file _ _ _ => []
  | .dir _ es =>
    let here := es.filterMap (fun e =>
      match e.2 with
      | .file fm fc _ => some ([e.1], fm, fc)
      | .dir _ _ => none)
    let directories := (es.filter (fun e => e.2.isDir)).insertionSort dir_mtime_ge
    let rest := ((directories.take newest_dir_count).attach.map
      (fun e => (spec_reachable_files e.1.2 newest_dir_count).map
        (fun q => (e.1.1 :: q.1, q.2))))
    here ++ rest.flatten
termination_by sizeOf t
decreasing_by
  rename_i es
  obtain ⟨⟨name, sub⟩, hmem⟩ := e
  have h1 := List.mem_of_mem_take hmem
  have h2 := (List.perm_insertionSort dir_mtime_ge _).mem_iff.mp h1
  have h3 := List.mem_of_mem_filter h2
  have h4 := List.sizeOf_lt_of_mem h3
  simp only [Prod.mk.sizeOf_spec, FSTree.dir.sizeOf_spec] at h4 ⊢
  omega

/-- The data the sweep keeps of a `DirEntry` it collected: the path
(relative to the sweep root, as components) and `st_mtime`.  These are
what `check_and_delete_on_usb` later uses (`.path` for `os.remove`,
`.stat().st_mtime` as sort key). -/
structure FileEntry where
  path : List String
  mtime : Int
deriving DecidableEq, Repr

/-- The collection pass of
`get_all_file_entries_delete_empty_dirs(start_dir)` over the entry
list of one directory: files are collected in scandir order,
directories are recursed into (their collected entries extending the
result in place), and — mirroring the `counter == 0` check followed by
`os.rmdir(start_dir)` inside the recursive call — a subdirectory whose
own entry list was empty is removed from the rebuilt entry list.
Returns (collected file entries, rebuilt entry list). -/
def gafed_entries : List (String × FSTree) →
    List FileEntry × List (String × FSTree)
  | [] => ([], [])
  | (n, .file fm fc cont) :: rest =>
      let r := gafed_entries rest
      (⟨[n], fm⟩ :: r.1, (n, .file fm fc cont) :: r.2)
  | (n, .dir dm des) :: rest =>
      let s := gafed_entries des
      let r := gafed_entries rest
      ((s.1.map (fun e => ⟨n :: e.path, e.mtime⟩)) ++ r.1,
       if des.length = 0 then r.2 else (n, .dir dm s.2) :: r.2)

/-- Embedding of `get_all_file_entries_delete_empty_dirs(start_dir)`
applied to a root directory with entry list `es` (root mtime `m`):
returns the collected file entries and the resulting root — `none`
when the root itself had zero entries (`counter == 0`) and was
`os.rmdir`ed. -/
def get_all_file_entries_delete_empty_dirs (m : Int)
    (es : List (String × FSTree)) :
    List FileEntry × Option (Int × List (String × FSTree)) :=
  let r := gafed_entries es
  (r.1, if es.length = 0 then none else some (m, r.2))

/-- All files of an entry list, with their relative paths and mtimes,
in scandir-recursion order.  Reference function used to state what the
sweep collects and what survives it. -/
def filesOf : List (String × FSTree) → List FileEntry
  | [] => []
  | (n, .file fm _ _) :: rest => ⟨[n], fm⟩ :: filesOf rest
  | (n, .dir _ des) :: rest =>
      ((filesOf des).map (fun e => ⟨n :: e.path, e.mtime⟩)) ++ filesOf rest

/-- Well-formedness of a real directory listing: entry names are
distinct at every level (as `os.scandir` guarantees). -/
def wf_entries : List (String × FSTree) → Bool
  | [] => true
  | (n, .file _ _ _) :: rest =>
      rest.all (fun e => !(e.1 == n)) && wf_entries rest
  | (n, .dir _ des) :: rest =>
      rest.all (fun e => !(e.1 == n)) && wf_entries des && wf_entries rest

/-- Is there a directory with zero entries anywhere in (or below) the
given entry list? -/
def hasEmptyDirUnder : List (String × FSTree) → Bool
  | [] => false
  | (_, .file _ _ _) :: rest => hasEmptyDirUnder rest
  | (_, .dir _ des) :: rest =>
      des.isEmpty || hasEmptyDirUnder des || hasEmptyDirUnder rest

/-- Embedding of `os.remove(path)` relative to a root entry list: the
regular file named by the final component, found by descending through
the directories named by the leading components, is removed.  Removing
a path with no such file is a no-op (the script catches and logs
per-file deletion errors and continues). -/
def os_remove (es : List (String × FSTree)) : List String →
    List (String × FSTree)
  | [] => es
  | [n] => es.filter (fun e => !(e.1 == n && !e.2.isDir))
  | n :: p2 :: p3 =>
      es.map (fun e =>
        if e.1 == n then
          match e.2 with
          | .dir dm des => (e.1, FSTree.dir dm (os_remove des (p2 :: p3)))
          | .file fm fc c => (e.1, FSTree.file fm fc c)
        else e)

/-- The key order of `file_entries.sort(key=lambda f:
f.stat().st_mtime)`: older file first, ties keeping collection order
(CPython's sort is stable). -/
def entry_mtime_le (a b : FileEntry) : Prop :=
  a.mtime ≤ b.mtime

instance : DecidableRel entry_mtime_le := fun a b => by
  unfold entry_mtime_le
  infer_instance

instance : IsTotal FileEntry entry_mtime_le :=
  ⟨fun a b => Int.le_total a.mtime b.mtime⟩

instance : IsTrans FileEntry entry_mtime_le :=
  ⟨fun _ _ _ h1 h2 => le_trans h1 h2⟩

/-- The sweep body of `check_and_delete_on_usb` (the part between
`mount` and `umount`): collect all file entries while deleting empty
directories, compute `max_file_diff = len(file_entries) -
KeepMaxFilesOnUSB`, and if positive delete that many oldest-by-mtime
files.  Returns the resulting root, `none` when the (empty) root
itself was deleted by the collection pass. -/
def check_and_delete_sweep (m : Int) (es : List (String × FSTree))
    (keep_max : Nat) : Option (Int × List (String × FSTree)) :=
  match get_all_file_entries_delete_empty_dirs m es with
  | (_, none) => none
  | (file_entries, some (m1, es1)) =>
      let max_file_diff : Int := (file_entries.length : Int) - (keep_max : Int)
      if max_file_diff > 0 then
        let sorted := file_entries.insertionSort entry_mtime_le
        some (m1, (sorted.take max_file_diff.toNat).foldl
          (fun acc e => os_remove acc e.path) es1)
      else
        some (m1, es1)

/-- A file placed under the batch directory by
`copy_file_with_directory_structure`: the batch directory name, the
path relative to `SOURCE_DIR` (whose directory part is recreated under
the batch directory by `os.makedirs`), and the content and mtime that
`shutil.copy2` copies over. -/
structure TransferEntry where
  batch : String
  relpath : List String
  mtime : Int
  content : List Nat
deriving DecidableEq, Repr

/-- Observable steps of one `copy_new_files` cycle, in program order. -/
inductive PollEvent where
  | mount_attempt
  | stale_marker_warning
  | stale_marker_removed
  | marker_created
  | copy_attempt (p : List String)
  | marker_cleared
  | umount_attempt
deriving DecidableEq, Repr

/-- Poller-process state across main-loop iterations: the in-memory
watermark `last_modify_time[0]`, existence of `COPYING_ACTIVE_FILE`,
whether `SOURCE_DIR` is mounted, the accumulated contents of the
`transfer/` staging area, and `cycle_counter[0]`. -/
structure PollerState where
  watermark : Int
  marker : Bool
  mounted : Bool
  transfer : List TransferEntry
  counter : Nat
deriving DecidableEq, Repr

/-- Environment of one `copy_new_files` call: the image mtime returned
by `os.stat(USB_IMG)` at entry (line 140) and after unmount (line
158), the mounted device content, and injected outcomes of the
fallible calls (`mount`, `umount`, each `shutil.copy2`). -/
structure CycleEnv where
  img_mtime_pre : Int
  img_mtime_post : Int
  source : List (String × FSTree)
  mount_ok : Bool
  umount_ok : Bool
  copy_ok : List String → Bool

/-- Resolve a relative path to the file data `(mtime, ctime, content)`
it names, descending through directories; `none` when no regular file
lies at that path.  `os.scandir` names are unique in a real listing;
on a `wf_entries` tree the first match is the only match. -/
def find_file (es : List (String × FSTree)) : List String →
    Option (Int × Int × List Nat)
  | [] => none
  | [n] =>
      match es.find? (fun e => e.1 == n) with
      | some (_, .file fm fc c) => some (fm, fc, c)
      | _ => none
  | n :: p2 :: p3 =>
      match es.find? (fun e => e.1 == n) with
      | some (_, .dir _ des) => find_file des (p2 :: p3)
      | _ => none

/-- The `for file in new_files:` loop of `copy_new_files`, each
iteration being `copy_file_with_directory_structure(SOURCE_DIR, file,
destination_dir)`: on success the file's relative path, content and
mtime are placed under the batch directory; a failed copy (injected
via `copy_ok`, or a vanished source file) raises, aborting the loop —
files already copied stay in the batch directory.  Returns (entries
written, copy events, completed without exception). -/
def run_copies (src : List (String × FSTree)) (batch : String)
    (copy_ok : List String → Bool) :
    List (List String) → List TransferEntry × List PollEvent × Bool
  | [] => ([], [], true)
  | p :: rest =>
      if copy_ok p then
        match find_file src p with
        | some d =>
            let r := run_copies src batch copy_ok rest
            (⟨batch, p, d.1, d.2.2⟩ :: r.1, PollEvent.copy_attempt p :: r.2.1,
              r.2.2)
        | none => ([], [PollEvent.copy_attempt p], false)
      else ([], [PollEvent.copy_attempt p], false)

/-- Embedding of `copy_new_files(last_modify_time, device)` (lines
139-158).  `str(int(current_modify_time))` names the batch directory;
with integer-valued model mtimes `int()` is the identity, so the name
is `toString env.img_mtime_pre`.  The source has no `try/finally`: any
exception between `mount` and `umount` (a failed copy here) propagates
immediately, so the remaining statements — marker clearing, `umount`,
watermark advance — are skipped.  Returns (new state, events,
completed without exception). -/
def copy_new_files (env : CycleEnv) (s : PollerState) :
    PollerState × List PollEvent × Bool :=
  let current_modify_time := env.img_mtime_pre
  if current_modify_time > s.watermark then
    if env.mount_ok then
      let s1 : PollerState := { s with mounted := true }
      let destination_dir := toString current_modify_time
      let new_files :=
        get_files_since_point_in_time (FSTree.dir 0 env.source) s.watermark 2
      let stale_events :=
        if s1.marker then
          [PollEvent.stale_marker_warning, PollEvent.stale_marker_removed]
        else []
      let s2 : PollerState := { s1 with marker := true }
      let r := run_copies env.source destination_dir env.copy_ok new_files
      let s3 : PollerState := { s2 with transfer := s2.transfer ++ r.1 }
      let events := PollEvent.mount_attempt ::
        (stale_events ++ (PollEvent.marker_created :: r.2.1))
      if r.2.2 then
        let s4 : PollerState := { s3 with marker := false }
        let events2 := events ++ [PollEvent.marker_cleared, PollEvent.umount_attempt]
        if env.umount_ok then
          ({ s4 with mounted := false, watermark := env.img_mtime_post },
            events2, true)
        else (s4, events2, false)
      else (s3, events, false)
    else (s, [PollEvent.mount_attempt], false)
  else (s, [], true)

/-- The two configuration values the poller's cycles read:
`check_count = DeleteOnUSBCycleTime / CopyCheckCycleTime` (the sweep
frequency as a multiple of poll ticks; a whole number in the model)
and `KeepMaxFilesOnUSB`. -/
structure Config where
  check_count : Nat
  keep_max : Nat

/-- Environment of one main-loop tick: the device content and injected
mount/umount outcomes seen by `check_and_delete_on_usb`, and the
`CycleEnv` seen by the subsequent `copy_new_files` call. -/
structure TickEnv where
  sweep_mount_ok : Bool
  sweep_umount_ok : Bool
  sweep_source : List (String × FSTree)
  copy : CycleEnv

/-- Embedding of `check_and_delete_on_usb(cycle_counter, device,
config)` (lines 117-137): increment the counter; once it exceeds
`check_count`, mount, run the sweep body, unmount, and reset the
counter.  Like `copy_new_files` it has no `try/finally`: a failed
`mount` raises before the sweep, and a failed `umount` raises before
the counter reset.  Returns (new counter, sweep result if one ran,
completed without exception). -/
def check_and_delete_on_usb (env : TickEnv) (cfg : Config)
    (counter : Nat) : Nat × Option (Option (Int × List (String × FSTree))) × Bool :=
  let c := counter + 1
  if c > cfg.check_count then
    if env.sweep_mount_ok then
      let r := check_and_delete_sweep 0 env.sweep_source cfg.keep_max
      if env.sweep_umount_ok then (0, some r, true) else (c, some r, false)
    else (c, none, false)
  else (c, none, true)

/-- Embedding of the poller's main loop (lines 189-195) wrapped in the
top-level `try/except` (lines 169-195): each tick runs
`check_and_delete_on_usb` then `copy_new_files`; an exception in
either propagates to the top-level handler, which logs it, and the
process terminates — no further iterations run.  `k` is the tick
index into the per-tick environments, `fuel` bounds the run length.
Returns (final process state, number of ticks executed). -/
def main_loop (envs : Nat → TickEnv) (cfg : Config) :
    Nat → Nat → PollerState → PollerState × Nat
  | _, 0, s => (s, 0)
  | k, fuel + 1, s =>
      let d := check_and_delete_on_usb (envs k) cfg s.counter
      let s1 : PollerState := { s with counter := d.1 }
      if d.2.2 then
        let c := copy_new_files (envs k).copy s1
        if c.2.2 then
          let r := main_loop envs cfg (k + 1) fuel c.1
          (r.1, r.2 + 1)
        else (c.1, 1)
      else (s1, 1)

/-- Observable steps of one forwarder batch dispatch. -/
inductive UploadEvent where
  | dropbox_upload (f : List String) (ok : Bool)
  | dropbox_error_logged (f : List String)
  | scp_run (ok : Bool)
  | scp_error_logged
  | batch_removed (name : String)
deriving DecidableEq, Repr

/-- Embedding of the forwarder's `get_all_files(folder)`: every file
path under the folder, files of a directory in scandir order, a
subdirectory's files extending the list in place. -/
def get_all_files : List (String × FSTree) → List (List String)
  | [] => []
  | (n, .file _ _ _) :: rest => [n] :: get_all_files rest
  | (n, .dir _ des) :: rest =>
      ((get_all_files des).map (fun p => n :: p)) ++ get_all_files rest

/-- Embedding of `transfer_to_dropbox(source_dir, config)` (lines
75-91): each file of the batch is uploaded in turn; the body of the
loop is wrapped in `try/except`, so a failed upload (injected via
`upload_ok`) is logged and the loop continues with the remaining
files.  Returns the event trace. -/
def transfer_to_dropbox (batch : List (String × FSTree))
    (upload_ok : List String → Bool) : List UploadEvent :=
  (get_all_files batch).flatMap (fun f =>
    if upload_ok f then [UploadEvent.dropbox_upload f true]
    else [UploadEvent.dropbox_upload f false, UploadEvent.dropbox_error_logged f])

/-- Embedding of `transfer_via_scp(source_dir, config)` (lines 54-64):
one `expect`-driven `scp` run for the whole batch; a non-zero exit or
a raised exception is logged and swallowed. -/
def transfer_via_scp (scp_ok : Bool) : List UploadEvent :=
  if scp_ok then [UploadEvent.scp_run true]
  else [UploadEvent.scp_run false, UploadEvent.scp_error_logged]

/-- The forwarder configuration keys the dispatch reads, plus the
injected per-file and per-run sink outcomes. -/
structure UploadConfig where
  activate_dropbox_sync : Bool
  activate_scp_sync : Bool
  dropbox_ok : List String → Bool
  scp_ok : Bool

/-- Embedding of the per-folder body of the forwarder's main loop
(lines 118-123): invoke the Dropbox sink if enabled, then the SCP sink
if enabled, then `shutil.rmtree(folder)` unconditionally. -/
def process_batch (cfg : UploadConfig) (name : String)
    (batch : List (String × FSTree)) : List UploadEvent :=
  (if cfg.activate_dropbox_sync then transfer_to_dropbox batch cfg.dropbox_ok
   else []) ++
  ((if cfg.activate_scp_sync then transfer_via_scp cfg.scp_ok else []) ++
   [UploadEvent.batch_removed name])

/-- Embedding of the loop of `wait_until_no_copying_active` with the
check index and `max_time` counter made explicit.  `present k` is the
value of `os.path.isfile(copy_active_file)` at the k-th check (k
counted from 0); each iteration whose check finds the marker present
sleeps one second, so the returned first component is the number of
seconds slept; the second component is whether the timeout warning was
logged. -/
def wait_loop (present : Nat → Bool) (checks max_time : Nat) : Nat × Bool :=
  if present checks then
    let m := max_time + 1
    if m > 30 then (m, true)
    else wait_loop present (checks + 1) m
  else (max_time, false)
termination_by 31 - max_time
decreasing_by omega

/-- Embedding of `wait_until_no_copying_active(copy_active_file)`
(lines 45-52). -/
def wait_until_no_copying_active (present : Nat → Bool) : Nat × Bool :=
  wait_loop present 0 0

/-- An idle poller state: fresh watermark 0, no marker, not mounted,
empty staging area. -/
def idle_state : PollerState :=
  { watermark := 0, marker := false, mounted := false, transfer := [],
    counter := 0 }

/-- The state a prior run crashed in between marking and clearing: the
marker file is still present. -/
def stale_marker_state : PollerState :=
  { idle_state with marker := true }

/-- A cycle in which the image changed (mtime 10 > watermark 0), the
device mounts, but copying the single changed file `a` raises. -/
def failing_copy_env : CycleEnv :=
  { img_mtime_pre := 10, img_mtime_post := 10,
    source := [("a", .file 5 5 [1])],
    mount_ok := true, umount_ok := true, copy_ok := fun _ => false }

/-- A cycle in which everything succeeds and the image is written to
again during the copy window: mtime 10 at entry, 20 after unmount. -/
def ok_copy_env : CycleEnv :=
  { failing_copy_env with img_mtime_post := 20, copy_ok := fun _ => true }

/-- A main-loop tick whose sweep phase is healthy and whose copy phase
is `failing_copy_env`. -/
def failing_tick_env : TickEnv :=
  { sweep_mount_ok := true, sweep_umount_ok := true, sweep_source := [],
    copy := failing_copy_env }

/-- A small poller configuration: sweep every 6th tick, keep at most
10 files. -/
def small_config : Config :=
  { check_count := 5, keep_max := 10 }

/-- The spec's worked scenario: changed files `a.txt` (mtime 1500) and
`sub/b.txt` (mtime 1800) on the mounted source. -/
def scenario_source : List (String × FSTree) :=
  [("a.txt", .file 1500 1500 [65]),
   ("sub", .dir 1800 [("b.txt", .file 1800 1800 [66])])]

/-- The spec's worked scenario environment: watermark 1000, image
mtime 2000 before and after, everything succeeds. -/
def scenario_env : CycleEnv :=
  { img_mtime_pre := 2000, img_mtime_post := 2000,
    source := scenario_source,
    mount_ok := true, umount_ok := true, copy_ok := fun _ => true }

/-- The spec's worked scenario starting state: watermark 1000. -/
def scenario_state : PollerState :=
  { watermark := 1000, marker := false, mounted := false, transfer := [],
    counter := 0 }

/-- A source tree for the sweep: directory `d` holds the oldest file,
a newer file sits at top level. -/
def sweep_demo_source : List (String × FSTree) :=
  [("d", .dir 0 [("old", .file 1 1 [7])]), ("new", .file 10 10 [8])]

/-- A forwarder configuration with both sinks enabled and an injected
per-file Dropbox failure on `a.txt`. -/
def both_sinks_config : UploadConfig :=
  { activate_dropbox_sync := true, activate_scp_sync := true,
    dropbox_ok := fun f => !(f == ["a.txt"]), scp_ok := true }

/-- C10 (confirmed): the collection pass applies its zero-entry
deletion to the traversal root itself, not only to subdirectories:
invoked on a directory with zero entries,
`get_all_file_entries_delete_empty_dirs` deletes that root directory
(result `none`).  In `check_and_delete_on_usb` this root is the source
mount point `SOURCE_DIR`, so the sweep of an empty source removes the
mount point directory. -/
theorem empty_root_is_deleted_by_collection_pass (m : Int) (keep_max : Nat) :
    get_all_file_entries_delete_empty_dirs m [] = ([], none) ∧
    check_and_delete_sweep m [] keep_max = none := by
  constructor
  · simp [get_all_file_entries_delete_empty_dirs, gafed_entries]
  · simp [check_and_delete_sweep, get_all_file_entries_delete_empty_dirs,
      gafed_entries]

theorem wait_loop_behavior (present : Nat → Bool) :
    ∀ d k, 31 = k + d → k ≤ 30 →
      k ≤ (wait_loop present k k).1 ∧ (wait_loop present k k).1 ≤ 31 ∧
      ((wait_loop present k k).2 = false →
        present (wait_loop present k k).1 = false ∧
        ∀ j, k ≤ j → j < (wait_loop present k k).1 → present j = true) ∧
      ((wait_loop present k k).2 = true →
        (wait_loop present k k).1 = 31 ∧
        ∀ j, k ≤ j → j < 31 → present j = true) := by
  intro d
  induction d with
  | zero => intro k h1 h2; omega
  | succ d ih =>
      intro k h1 h2
      rw [wait_loop]
      by_cases hp : present k = true
      · simp only [hp, if_true]
        by_cases hk : k + 1 > 30
        · have hk30 : k = 30 := by omega
          simp only [hk, if_true]
          refine ⟨by omega, by omega, by simp, fun _ => ⟨by omega, ?_⟩⟩
          intro j hj1 hj2
          have : j = k := by omega
          rw [this]; exact hp
        · simp only [hk, if_false]
          have ihk := ih (k + 1) (by omega) (by omega)
          refine ⟨by omega, ihk.2.1, ?_, ?_⟩
          · intro hw
            refine ⟨(ihk.2.2.1 hw).1, ?_⟩
            intro j hj1 hj2
            by_cases hjk : j = k
            · rw [hjk]; exact hp
            · exact (ihk.2.2.1 hw).2 j (by omega) hj2
          · intro hw
            refine ⟨(ihk.2.2.2 hw).1, ?_⟩
            intro j hj1 hj2
            by_cases hjk : j = k
            · rw [hjk]; exact hp
            · exact (ihk.2.2.2 hw).2 j (by omega) hj2
      · simp only [Bool.not_eq_true] at hp
        simp only [hp, Bool.false_eq_true, if_false]
        refine ⟨le_refl k, by omega, fun _ => ⟨?_, fun j hj1 hj2 => by omega⟩,
          fun hw => by simp at hw⟩
        simp [hp]

/-- C8 counterexample: with the marker permanently present, the wait
performs 31 one-second sleeps before the `max_time > 30` test breaks
the loop — the wait blocks for 31 seconds, not at most 30 as claimed. -/
theorem wait_counterexample_blocks_31_seconds :
    wait_until_no_copying_active (fun _ => true) = (31, true) := by
  simp [wait_until_no_copying_active, wait_loop]

/-- C8 (amended): the forwarder's wait-for-clear polls for the
marker's absence once per second and returns as soon as a check finds
the marker absent (having slept once per preceding present check);
if the marker is still present after the 31st one-second sleep (the
`max_time > 30` test), it logs a warning and proceeds anyway, so the
wait never blocks for more than 31 seconds (not 30, as the loop
sleeps once more after the 30th second before testing). -/
theorem wait_until_no_copying_active_spec (present : Nat → Bool) :
    (wait_until_no_copying_active present).1 ≤ 31 ∧
    ((wait_until_no_copying_active present).2 = false →
      present (wait_until_no_copying_active present).1 = false ∧
      ∀ j < (wait_until_no_copying_active present).1, present j = true) ∧
    ((wait_until_no_copying_active present).2 = true →
      (wait_until_no_copying_active present).1 = 31 ∧
      ∀ j < 31, present j = true) := by
  have h := wait_loop_behavior present 31 0 rfl (by omega)
  unfold wait_until_no_copying_active
  refine ⟨h.2.1, ?_, ?_⟩
  · intro hw
    exact ⟨(h.2.2.1 hw).1, fun j hj => (h.2.2.1 hw).2 j (by omega) hj⟩
  · intro hw
    exact ⟨(h.2.2.2 hw).1, fun j hj => (h.2.2.2 hw).2 j (by omega) hj⟩

/-- C8 witness: the spec's scenario — marker cleared after 5 seconds —
returns normally with 5 sleeps, within the proved 31-second bound. -/
theorem wait_until_no_copying_active_spec_witness :
    (wait_until_no_copying_active (fun k => decide (k < 5))).1 ≤ 31 ∧
    wait_until_no_copying_active (fun k => decide (k < 5)) = (5, false) :=
  ⟨(wait_until_no_copying_active_spec (fun k => decide (k < 5))).1,
    by simp [wait_until_no_copying_active, wait_loop]⟩

/-- C7 (confirmed): in every successful copy cycle the watermark is
advanced to the image mtime read by the `os.stat` call placed after
`umount` (line 158), `env.img_mtime_post` — not to the value read at
cycle entry (`env.img_mtime_pre`), whatever that was. -/
theorem watermark_advances_to_post_unmount_mtime (env : CycleEnv)
    (s : PollerState) (htrig : env.img_mtime_pre > s.watermark)
    (hok : (copy_new_files env s).2.2 = true) :
    (copy_new_files env s).1.watermark = env.img_mtime_post := by
  by_cases hm : env.mount_ok = true
  · by_cases hr : (run_copies env.source (toString env.img_mtime_pre)
        env.copy_ok (get_files_since_point_in_time (FSTree.dir 0 env.source)
          s.watermark 2)).2.2 = true
    · by_cases hu : env.umount_ok = true
      · simp [copy_new_files, htrig, hm, hr, hu]
      · simp [copy_new_files, htrig, hm, hr, hu] at hok
    · simp [copy_new_files, htrig, hm, hr] at hok
  · simp [copy_new_files, htrig, hm] at hok

/-- C7 witness: a concrete successful cycle with image mtime 10 at
entry and 20 after unmount ends with watermark 20, which differs from
the pre-copy reading 10. -/
theorem watermark_advances_witness :
    (copy_new_files ok_copy_env idle_state).1.watermark = 20 ∧
    (20 : Int) ≠ (10 : Int) := by
  have h := watermark_advances_to_post_unmount_mtime ok_copy_env idle_state
    (by decide)
    (by simp [copy_new_files, ok_copy_env, failing_copy_env, idle_state,
      run_copies, get_files_since_point_in_time, FSTree.qualifies,
      FSTree.isDir, List.insertionSort, find_file])
  exact ⟨h, by decide⟩

/-- C5 (confirmed): a copy cycle that fires and completes without
error ends with the copy-in-progress marker absent; and when a stale
marker is present on entry (prior crashed run), the cycle's event
trace begins with mount, the stale-marker warning, the stale-marker
removal and the marker re-creation — every copy event lies in `rest`,
so the stale marker is removed (with a warning logged) before any
copying. -/
theorem marker_absent_after_cycle_and_stale_removed_before_copying
    (env : CycleEnv) (s : PollerState)
    (htrig : env.img_mtime_pre > s.watermark) :
    ((copy_new_files env s).2.2 = true → (copy_new_files env s).1.marker = false) ∧
    (s.marker = true → env.mount_ok = true →
      ∃ rest, (copy_new_files env s).2.1 =
        PollEvent.mount_attempt :: PollEvent.stale_marker_warning ::
          PollEvent.stale_marker_removed :: PollEvent.marker_created :: rest) := by
  constructor
  · intro hok
    by_cases hm : env.mount_ok = true
    · by_cases hr : (run_copies env.source (toString env.img_mtime_pre)
          env.copy_ok (get_files_since_point_in_time (FSTree.dir 0 env.source)
            s.watermark 2)).2.2 = true
      · by_cases hu : env.umount_ok = true
        · simp [copy_new_files, htrig, hm, hr, hu]
        · simp [copy_new_files, htrig, hm, hr, hu] at hok
      · simp [copy_new_files, htrig, hm, hr] at hok
    · simp [copy_new_files, htrig, hm] at hok
  · intro hmk hm
    by_cases hr : (run_copies env.source (toString env.img_mtime_pre)
        env.copy_ok (get_files_since_point_in_time (FSTree.dir 0 env.source)
          s.watermark 2)).2.2 = true
    · refine ⟨(run_copies env.source (toString env.img_mtime_pre)
        env.copy_ok (get_files_since_point_in_time (FSTree.dir 0 env.source)
          s.watermark 2)).2.1 ++ [PollEvent.marker_cleared, PollEvent.umount_attempt], ?_⟩
      by_cases hu : env.umount_ok = true
      · simp [copy_new_files, htrig, hm, hmk, hr, hu]
      · simp [copy_new_files, htrig, hm, hmk, hr, hu]
    · refine ⟨(run_copies env.source (toString env.img_mtime_pre)
        env.copy_ok (get_files_since_point_in_time (FSTree.dir 0 env.source)
          s.watermark 2)).2.1, ?_⟩
      simp [copy_new_files, htrig, hm, hmk, hr]

/-- C5 witness: a concrete cycle entered with a stale marker: the
cycle completes, the marker ends absent, and the trace starts with the
warning and removal before the copy of `a`. -/
theorem marker_absent_witness :
    (copy_new_files ok_copy_env stale_marker_state).1.marker = false ∧
    (∃ rest, (copy_new_files ok_copy_env stale_marker_state).2.1 =
      PollEvent.mount_attempt :: PollEvent.stale_marker_warning ::
        PollEvent.stale_marker_removed :: PollEvent.marker_created :: rest) := by
  have h := marker_absent_after_cycle_and_stale_removed_before_copying
    ok_copy_env stale_marker_state (by decide)
  refine ⟨h.1 ?_, h.2 rfl rfl⟩
  simp [copy_new_files, ok_copy_env, failing_copy_env, stale_marker_state,
    idle_state, run_copies, get_files_since_point_in_time, FSTree.qualifies,
    FSTree.isDir, List.insertionSort, find_file]

theorem run_copies_events_are_copy_events (src : List (String × FSTree))
    (batch : String) (cok : List String → Bool) (files : List (List String)) :
    ∀ ev ∈ (run_copies src batch cok files).2.1, ∃ p, ev = PollEvent.copy_attempt p := by
  induction files with
  | nil => simp [run_copies]
  | cons p rest ih =>
      intro ev hev
      by_cases hc : cok p = true
      · cases hf : find_file src p with
        | some d =>
            simp [run_copies, hc, hf] at hev
            rcases hev with h | h
            · exact ⟨p, h⟩
            · exact ih ev h
        | none =>
            simp [run_copies, hc, hf] at hev
            exact ⟨p, hev⟩
      · simp [run_copies, hc] at hev
        exact ⟨p, hev⟩

/-- C1 (amended): the source has no `try/finally`, so no scoped
unmount exists.  In a copy cycle the unmount is attempted exactly when
the cycle fired, the mount succeeded, and every file copy between
mount and unmount completed; and when a copy raises mid-cycle, the
exception propagates immediately and the cycle ends with the mount
point still mounted — the cleanup path does not run. -/
theorem unmount_attempted_iff_no_midcycle_error (env : CycleEnv) (s : PollerState) :
    (PollEvent.umount_attempt ∈ (copy_new_files env s).2.1 ↔
      env.img_mtime_pre > s.watermark ∧ env.mount_ok = true ∧
        (run_copies env.source (toString env.img_mtime_pre) env.copy_ok
          (get_files_since_point_in_time (FSTree.dir 0 env.source)
            s.watermark 2)).2.2 = true) ∧
    (env.img_mtime_pre > s.watermark → env.mount_ok = true →
      (run_copies env.source (toString env.img_mtime_pre) env.copy_ok
        (get_files_since_point_in_time (FSTree.dir 0 env.source)
          s.watermark 2)).2.2 = false →
      (copy_new_files env s).1.mounted = true ∧
      PollEvent.umount_attempt ∉ (copy_new_files env s).2.1) := by
  have hne : PollEvent.umount_attempt ∉ (run_copies env.source
      (toString env.img_mtime_pre) env.copy_ok
      (get_files_since_point_in_time (FSTree.dir 0 env.source)
        s.watermark 2)).2.1 := by
    intro hmem
    rcases run_copies_events_are_copy_events _ _ _ _ _ hmem with ⟨p, hp⟩
    cases hp
  by_cases ht : env.img_mtime_pre > s.watermark
  · by_cases hm : env.mount_ok = true
    · by_cases hr : (run_copies env.source (toString env.img_mtime_pre)
          env.copy_ok (get_files_since_point_in_time (FSTree.dir 0 env.source)
            s.watermark 2)).2.2 = true
      · constructor
        · by_cases hu : env.umount_ok = true
          · simp [copy_new_files, ht, hm, hr, hu]
          · simp [copy_new_files, ht, hm, hr, hu]
        · intro _ _ hr2
          rw [hr] at hr2
          cases hr2
      · constructor
        · by_cases hsm : s.marker = true
          · simp [copy_new_files, ht, hm, hr, hsm, hne]
          · simp [copy_new_files, ht, hm, hr, hsm, hne]
        · intro _ _ _
          by_cases hsm : s.marker = true
          · simp [copy_new_files, ht, hm, hr, hsm, hne]
          · simp [copy_new_files, ht, hm, hr, hsm, hne]
    · constructor
      · simp [copy_new_files, ht, hm]
      · intro _ hm2
        exact absurd hm2 hm
  · constructor
    · simp [copy_new_files, ht]
    · intro ht2
      exact absurd ht2 ht

/-- C1 counterexample: the cycle `failing_copy_env` mounts, then the
copy of the single changed file `a` raises; the cycle ends with the
mount point still mounted and no unmount attempted — refuting the
claim that an unmount is attempted even when an operation between
mount and unmount raises. -/
theorem no_unmount_after_copy_failure :
    (copy_new_files failing_copy_env idle_state).1.mounted = true ∧
    PollEvent.umount_attempt ∉ (copy_new_files failing_copy_env idle_state).2.1 := by
  simp [copy_new_files, failing_copy_env, idle_state, run_copies,
    get_files_since_point_in_time, FSTree.qualifies, FSTree.isDir,
    List.insertionSort, find_file]

/-- C1 witness: the amended theorem applied to the concrete failing
cycle: the copy of `a` fails, so the mount point is left mounted. -/
theorem unmount_attempted_iff_witness :
    (copy_new_files failing_copy_env idle_state).1.mounted = true := by
  have h := unmount_attempted_iff_no_midcycle_error failing_copy_env idle_state
  exact (h.2 (by decide) (by decide)
    (by simp [failing_copy_env, idle_state, run_copies,
      get_files_since_point_in_time, FSTree.qualifies, FSTree.isDir,
      List.insertionSort, find_file])).1

theorem copy_new_files_failure_keeps_watermark (env : CycleEnv)
    (s : PollerState) (hfail : (copy_new_files env s).2.2 = false) :
    (copy_new_files env s).1.watermark = s.watermark := by
  by_cases ht : env.img_mtime_pre > s.watermark
  · by_cases hm : env.mount_ok = true
    · by_cases hr : (run_copies env.source (toString env.img_mtime_pre)
          env.copy_ok (get_files_since_point_in_time (FSTree.dir 0 env.source)
            s.watermark 2)).2.2 = true
      · by_cases hu : env.umount_ok = true
        · simp [copy_new_files, ht, hm, hr, hu] at hfail
        · simp [copy_new_files, ht, hm, hr, hu]
      · simp [copy_new_files, ht, hm, hr]
    · simp [copy_new_files, ht, hm]
  · simp [copy_new_files, ht]

/-- C2 (amended): a failed file copy aborts the cycle mid-batch and
the watermark is not advanced — but the error is fatal to the process,
not only to the cycle: the exception propagates to the top-level
handler (lines 194-195), which logs it, and the loop body is never
entered again, so no next poll tick occurs within the process. -/
theorem copy_failure_terminates_process (envs : Nat → TickEnv) (cfg : Config)
    (s : PollerState) (fuel : Nat)
    (hsweep : (check_and_delete_on_usb (envs 0) cfg s.counter).2.2 = true)
    (hcopy : (copy_new_files (envs 0).copy
        { s with counter := (check_and_delete_on_usb (envs 0) cfg s.counter).1 }).2.2
      = false) :
    (main_loop envs cfg 0 (fuel + 1) s).2 = 1 ∧
    (main_loop envs cfg 0 (fuel + 1) s).1.watermark = s.watermark := by
  have hw := copy_new_files_failure_keeps_watermark ((envs 0).copy) _ hcopy
  constructor
  · simp [main_loop, hsweep, hcopy]
  · simp only [main_loop, hsweep, if_true]
    simp [hcopy, hw]

/-- C2 counterexample: a run whose first tick's copy fails executes
exactly one tick despite fuel for three — the process terminates, so
no next poll tick re-evaluates anything (the watermark is indeed left
unchanged at 0). -/
theorem process_dies_without_next_tick :
    (main_loop (fun _ => failing_tick_env) small_config 0 3 idle_state).2 = 1 ∧
    (main_loop (fun _ => failing_tick_env) small_config 0 3 idle_state).1.watermark
      = 0 := by
  simp [main_loop, check_and_delete_on_usb, failing_tick_env, small_config,
    idle_state, copy_new_files, failing_copy_env, run_copies,
    get_files_since_point_in_time, FSTree.qualifies, FSTree.isDir,
    List.insertionSort, find_file]

/-- C2 witness: the amended theorem applied to the concrete failing
run with fuel 5: one tick executes and the watermark stays 0. -/
theorem copy_failure_terminates_process_witness :
    (main_loop (fun _ => failing_tick_env) small_config 0 5 idle_state).2 = 1 ∧
    (main_loop (fun _ => failing_tick_env) small_config 0 5 idle_state).1.watermark
      = 0 := by
  have h := copy_failure_terminates_process (fun _ => failing_tick_env)
    small_config idle_state 4
    (by simp [check_and_delete_on_usb, failing_tick_env, small_config, idle_state])
    (by simp [check_and_delete_on_usb, failing_tick_env, small_config,
      idle_state, copy_new_files, failing_copy_env, run_copies,
      get_files_since_point_in_time, FSTree.qualifies, FSTree.isDir,
      List.insertionSort, find_file])
  exact ⟨h.1, by rw [h.2]; rfl⟩

theorem no_removal_in_dropbox_events (batch : List (String × FSTree))
    (okf : List String → Bool) (n2 : String) :
    UploadEvent.batch_removed n2 ∉ transfer_to_dropbox batch okf := by
  intro h
  unfold transfer_to_dropbox at h
  rw [List.mem_flatMap] at h
  rcases h with ⟨f, _, hmem⟩
  by_cases hok : okf f = true <;> simp [hok] at hmem

theorem no_removal_in_scp_events (ok : Bool) (n2 : String) :
    UploadEvent.batch_removed n2 ∉ transfer_via_scp ok := by
  cases ok <;> simp [transfer_via_scp]

theorem dropbox_attempts_every_file (batch : List (String × FSTree))
    (okf : List String → Bool) (f : List String)
    (hf : f ∈ get_all_files batch) :
    UploadEvent.dropbox_upload f (okf f) ∈ transfer_to_dropbox batch okf := by
  unfold transfer_to_dropbox
  rw [List.mem_flatMap]
  refine ⟨f, hf, ?_⟩
  by_cases hok : okf f = true <;> simp [hok]

/-- C6 (confirmed): the forwarder removes a batch directory only after
every enabled sink has been invoked: the dispatch trace is the sink
events followed by the single removal event; no removal occurs among
the sink events; if the Dropbox sink is enabled it attempts every file
of the batch, each with its own (possibly failing) outcome — a
per-file failure is caught and logged without aborting the remaining
files; and if the SCP sink is enabled its run occurs regardless of
Dropbox outcomes. -/
theorem batch_removed_only_after_all_sinks (cfg : UploadConfig) (name : String)
    (batch : List (String × FSTree)) :
    ∃ evs, process_batch cfg name batch = evs ++ [UploadEvent.batch_removed name] ∧
      (∀ n2, UploadEvent.batch_removed n2 ∉ evs) ∧
      (cfg.activate_dropbox_sync = true → ∀ f ∈ get_all_files batch,
        UploadEvent.dropbox_upload f (cfg.dropbox_ok f) ∈ evs) ∧
      (cfg.activate_scp_sync = true → UploadEvent.scp_run cfg.scp_ok ∈ evs) := by
  refine ⟨(if cfg.activate_dropbox_sync then transfer_to_dropbox batch cfg.dropbox_ok
      else []) ++
    (if cfg.activate_scp_sync then transfer_via_scp cfg.scp_ok else []),
    ?_, ?_, ?_, ?_⟩
  · simp [process_batch]
  · intro n2 hmem
    rw [List.mem_append] at hmem
    rcases hmem with h | h
    · by_cases hd : cfg.activate_dropbox_sync = true
      · rw [if_pos hd] at h
        exact no_removal_in_dropbox_events batch cfg.dropbox_ok n2 h
      · rw [if_neg hd] at h
        cases h
    · by_cases hs : cfg.activate_scp_sync = true
      · rw [if_pos hs] at h
        exact no_removal_in_scp_events cfg.scp_ok n2 h
      · rw [if_neg hs] at h
        cases h
  · intro hd f hf
    rw [List.mem_append]
    left
    rw [if_pos hd]
    exact dropbox_attempts_every_file batch cfg.dropbox_ok f hf
  · intro hs
    rw [List.mem_append]
    right
    rw [if_pos hs]
    cases hok : cfg.scp_ok <;> simp [transfer_via_scp, hok]

/-- C6 witness: both sinks enabled on a two-file batch with an
injected Dropbox failure on `a.txt`: the theorem applies, and the
concrete trace shows the failed upload logged, the second file still
attempted, the SCP run still performed, and removal last. -/
theorem batch_removed_only_after_all_sinks_witness :
    (∃ evs, process_batch both_sinks_config "2000" scenario_source =
        evs ++ [UploadEvent.batch_removed "2000"] ∧
      (∀ n2, UploadEvent.batch_removed n2 ∉ evs) ∧
      (both_sinks_config.activate_dropbox_sync = true →
        ∀ f ∈ get_all_files scenario_source,
          UploadEvent.dropbox_upload f (both_sinks_config.dropbox_ok f) ∈ evs) ∧
      (both_sinks_config.activate_scp_sync = true →
        UploadEvent.scp_run both_sinks_config.scp_ok ∈ evs)) ∧
    process_batch both_sinks_config "2000" scenario_source =
      [UploadEvent.dropbox_upload ["a.txt"] false,
       UploadEvent.dropbox_error_logged ["a.txt"],
       UploadEvent.dropbox_upload ["sub", "b.txt"] true,
       UploadEvent.scp_run true,
       UploadEvent.batch_removed "2000"] :=
  ⟨batch_removed_only_after_all_sinks both_sinks_config "2000" scenario_source,
   by simp [process_batch, both_sinks_config, transfer_to_dropbox,
     transfer_via_scp, get_all_files, scenario_source]⟩

theorem file_hits_eq_filtered_here (es : List (String × FSTree)) (pit : Int) :
    (es.filter (fun e => e.2.qualifies pit)).map (fun e => ([e.1] : List String))
      = ((es.filterMap (fun e => match e.2 with
          | FSTree.file fm fc _ => some (([e.1] : List String), fm, fc)
          | FSTree.dir _ _ => none)).filter
          (fun q => decide (max q.2.1 q.2.2 > pit))).map (fun q => q.1) := by
  induction es with
  | nil => rfl
  | cons e rest ih =>
      obtain ⟨n, t⟩ := e
      cases t with
      | file fm fc c =>
          by_cases h1 : pit < fm
          · simpa [FSTree.qualifies, h1] using ih
          · by_cases h2 : pit < fc
            · simpa [FSTree.qualifies, h1, h2] using ih
            · simpa [FSTree.qualifies, h1, h2] using ih
      | dir dm des => simpa [FSTree.qualifies] using ih

theorem scan_eq_filter_reachable (t : FSTree) (pit : Int) (ndc : Nat) :
    get_files_since_point_in_time t pit ndc =
      ((spec_reachable_files t ndc).filter
        (fun q => decide (max q.2.1 q.2.2 > pit))).map (fun q => q.1) := by
  induction t, pit, ndc using get_files_since_point_in_time.induct with
  | case1 pit ndc fm fc c =>
      simp [get_files_since_point_in_time, spec_reachable_files]
  | case2 pit ndc m es dirs ih =>
      simp only [get_files_since_point_in_time, spec_reachable_files]
      rw [List.filter_append, List.map_append]
      congr 1
      · exact file_hits_eq_filtered_here es pit
      · simp only [List.filter_flatten, List.map_flatten, List.map_map]
        congr 1
        apply List.map_congr_left
        intro e he
        rw [ih e]
        simp [List.filter_map, List.map_map, Function.comp_def]

/-- C4 (confirmed): for every tree, watermark and depth bound, the
change scan returns exactly the paths of the reachable files — those
found by recursing, at each level, into only the `newest_dir_count`
most-recently-modified subdirectories (stably ordered by directory
mtime descending) — whose `max(mtime, ctime)` strictly exceeds the
watermark; and with depth bound 0 it returns only the qualifying files
directly in the root.  The embedded scan is a pure function of the
tree (the source only reads via `os.scandir`/`stat`), so the scan has
no side effects on the tree. -/
theorem scan_is_exact_filter_of_bounded_reach (t : FSTree) (pit : Int)
    (ndc : Nat) :
    (get_files_since_point_in_time t pit ndc =
      ((spec_reachable_files t ndc).filter
        (fun q => decide (max q.2.1 q.2.2 > pit))).map (fun q => q.1)) ∧
    (∀ m es, get_files_since_point_in_time (FSTree.dir m es) pit 0 =
      (es.filter (fun e => e.2.qualifies pit)).map (fun e => [e.1])) := by
  refine ⟨scan_eq_filter_reachable t pit ndc, ?_⟩
  intro m es
  simp [get_files_since_point_in_time]

theorem run_copies_success_entries (src : List (String × FSTree))
    (batch : String) (cok : List String → Bool) :
    ∀ files, (run_copies src batch cok files).2.2 = true →
    ∀ p ∈ files, ∃ d, find_file src p = some d ∧
      (⟨batch, p, d.1, d.2.2⟩ : TransferEntry) ∈ (run_copies src batch cok files).1 := by
  intro files
  induction files with
  | nil => simp
  | cons p rest ih =>
      intro hok q hq
      by_cases hc : cok p = true
      · cases hf : find_file src p with
        | some d =>
            simp only [run_copies, hc, hf, if_true] at hok ⊢
            rcases List.mem_cons.mp hq with rfl | hq2
            · exact ⟨d, hf, by simp⟩
            · obtain ⟨d2, hfind, hmem⟩ := ih hok q hq2
              exact ⟨d2, hfind, by simp [hmem]⟩
        | none => simp [run_copies, hc, hf] at hok
      · simp [run_copies, hc] at hok

/-- C9 (confirmed): in a successful copy cycle every file returned by
the change scan is copied into the batch directory named
`str(int(current_modify_time))` — the image mtime read at cycle entry,
stringified — with its path relative to the source root preserved
under the batch directory and with the content and mtime that the
source file has (as `shutil.copy2` copies data and timestamps); and
the watermark ends at the image mtime re-read after unmount (2000 in
the spec's scenario, where the image is not written during the
copy). -/
theorem copy_cycle_populates_batch (env : CycleEnv) (s : PollerState)
    (htrig : env.img_mtime_pre > s.watermark)
    (hok : (copy_new_files env s).2.2 = true) :
    (∀ p ∈ get_files_since_point_in_time (FSTree.dir 0 env.source) s.watermark 2,
      ∃ fm fc c, find_file env.source p = some (fm, fc, c) ∧
        (⟨toString env.img_mtime_pre, p, fm, c⟩ : TransferEntry) ∈
          (copy_new_files env s).1.transfer) ∧
    (copy_new_files env s).1.watermark = env.img_mtime_post := by
  by_cases hm : env.mount_ok = true
  · by_cases hr : (run_copies env.source (toString env.img_mtime_pre)
        env.copy_ok (get_files_since_point_in_time (FSTree.dir 0 env.source)
          s.watermark 2)).2.2 = true
    · by_cases hu : env.umount_ok = true
      · constructor
        · intro p hp
          obtain ⟨d, hfind, hmem⟩ := run_copies_success_entries env.source
            (toString env.img_mtime_pre) env.copy_ok _ hr p hp
          refine ⟨d.1, d.2.1, d.2.2, by simpa using hfind, ?_⟩
          simp only [copy_new_files, htrig, if_pos, hm, hr, hu, if_true]
          simp [hmem]
        · simp [copy_new_files, htrig, hm, hr, hu]
      · simp [copy_new_files, htrig, hm, hr, hu] at hok
    · simp [copy_new_files, htrig, hm, hr] at hok
  · simp [copy_new_files, htrig, hm] at hok

/-- C9 witness: the spec's worked scenario — watermark 1000, image
mtime 2000, changed files `a.txt` (mtime 1500) and `sub/b.txt` (mtime
1800) — ends with both files in batch directory `2000`, contents and
mtimes preserved, and the watermark advanced to 2000. -/
theorem copy_cycle_populates_batch_witness :
    (⟨"2000", ["a.txt"], 1500, [65]⟩ : TransferEntry) ∈
      (copy_new_files scenario_env scenario_state).1.transfer ∧
    (⟨"2000", ["sub", "b.txt"], 1800, [66]⟩ : TransferEntry) ∈
      (copy_new_files scenario_env scenario_state).1.transfer ∧
    (copy_new_files scenario_env scenario_state).1.watermark = 2000 := by
  have h := copy_cycle_populates_batch scenario_env scenario_state (by decide)
    (by simp [copy_new_files, scenario_env, scenario_source, scenario_state,
      run_copies, get_files_since_point_in_time, FSTree.qualifies,
      FSTree.isDir, FSTree.mtimeOf, List.insertionSort, List.orderedInsert,
      find_file])
  refine ⟨?_, ?_, by rw [h.2]; rfl⟩ <;>
    simp [copy_new_files, scenario_env, scenario_source, scenario_state,
      run_copies, get_files_since_point_in_time, FSTree.qualifies,
      FSTree.isDir, FSTree.mtimeOf, List.insertionSort, List.orderedInsert,
      find_file] <;>
    decide

theorem gafed_entries_fst (es : List (String × FSTree)) :
    (gafed_entries es).1 = filesOf es := by
  induction es using gafed_entries.induct with
  | case1 => simp [gafed_entries, filesOf]
  | case2 n fm fc cont rest ih => simp [gafed_entries, filesOf, ih]
  | case3 n dm des rest ih1 ih2 => simp [gafed_entries, filesOf, ih1, ih2]

theorem filesOf_gafed_snd (es : List (String × FSTree)) :
    filesOf (gafed_entries es).2 = filesOf es := by
  induction es using gafed_entries.induct with
  | case1 => simp [gafed_entries, filesOf]
  | case2 n fm fc cont rest ih => simp [gafed_entries, filesOf, ih]
  | case3 n dm des rest ih1 ih2 =>
      by_cases hlen : des.length = 0
      · have hnil : des = [] := List.length_eq_zero.mp hlen
        subst hnil
        simp [gafed_entries, filesOf, ih2]
      · simp [gafed_entries, filesOf, hlen, ih1, ih2]

theorem filesOf_path_head (es : List (String × FSTree)) :
    ∀ fe ∈ filesOf es, ∃ n rest2, fe.path = n :: rest2 ∧ n ∈ es.map Prod.fst := by
  induction es using gafed_entries.induct with
  | case1 => simp [filesOf]
  | case2 n fm fc cont rest ih =>
      intro fe hfe
      simp only [filesOf, List.mem_cons] at hfe
      rcases hfe with rfl | hfe2
      · exact ⟨n, [], rfl, by simp⟩
      · obtain ⟨n2, r2, hp, hn⟩ := ih fe hfe2
        refine ⟨n2, r2, hp, ?_⟩
        simp only [List.map_cons, List.mem_cons]
        right
        exact hn
  | case3 n dm des rest ih1 ih2 =>
      intro fe hfe
      simp only [filesOf, List.mem_append] at hfe
      rcases hfe with hfe | hfe
      · obtain ⟨fe2, hfe2, rfl⟩ := List.mem_map.mp hfe
        exact ⟨n, fe2.path, rfl, by simp⟩
      · obtain ⟨n2, r2, hp, hn⟩ := ih2 fe hfe
        refine ⟨n2, r2, hp, ?_⟩
        simp only [List.map_cons, List.mem_cons]
        right
        exact hn
theorem filesOf_os_remove : ∀ (es : List (String × FSTree)) (p : List String),
    filesOf (os_remove es p) = (filesOf es).filter (fun fe => decide (fe.path ≠ p)) := by
  intro es p
  induction es, p using os_remove.induct with
  | case1 es =>
      rw [os_remove]
      symm
      apply List.filter_eq_self.mpr
      intro fe hfe
      obtain ⟨n2, r2, hp, _⟩ := filesOf_path_head es fe hfe
      simp [hp]
  | case2 es n =>
      induction es using gafed_entries.induct with
      | case1 => simp [os_remove, filesOf]
      | case2 m fm fc cont rest ih =>
          simp only [os_remove] at ih ⊢
          by_cases hmn : m = n
          · subst hmn
            simp [filesOf, List.filter_cons, FSTree.isDir] at ih ⊢
            exact ih
          · simp [filesOf, List.filter_cons, FSTree.isDir, hmn] at ih ⊢
            exact ih
      | case3 m dm des rest ih1 ih2 =>
          simp only [os_remove] at ih2 ⊢
          simp only [FSTree.isDir] at ih2
          rw [List.filter_cons]
          simp only [FSTree.isDir, Bool.not_true, Bool.and_false, Bool.not_false,
            if_true]
          simp only [filesOf, List.filter_append]
          rw [ih2]
          congr 1
          symm
          apply List.filter_eq_self.mpr
          intro fe hfe
          obtain ⟨fe2, hfe2, rfl⟩ := List.mem_map.mp hfe
          obtain ⟨n2, r2, hp, _⟩ := filesOf_path_head des fe2 hfe2
          simp [hp]
  | case3 es n p2 p3 ihdes =>
      induction es using gafed_entries.induct with
      | case1 => simp [os_remove, filesOf]
      | case2 m fm fc cont rest ih =>
          simp only [os_remove] at ih ⊢
          by_cases hmn : m = n
          · subst hmn
            simp [filesOf] at ih ⊢
            exact ih
          · simp [filesOf, hmn] at ih ⊢
            exact ih
      | case3 m dm des rest ih1 ih2 =>
          simp only [os_remove] at ih2 ⊢
          simp only [List.map_cons]
          by_cases hmn : m = n
          · subst hmn
            simp only [beq_self_eq_true, if_true]
            simp only [filesOf, List.filter_append]
            rw [ih2, ihdes des]
            congr 1
            rw [List.filter_map]
            congr 1
            apply List.filter_congr
            intro fe hfe
            simp [Function.comp]
          · simp only [beq_iff_eq] at ih2
            simp only [beq_iff_eq, hmn, if_false]
            simp only [filesOf, List.filter_append]
            rw [ih2]
            congr 1
            symm
            apply List.filter_eq_self.mpr
            intro fe hfe
            obtain ⟨fe2, hfe2, rfl⟩ := List.mem_map.mp hfe
            simp [hmn]

theorem wf_filesOf_paths_nodup : ∀ (es : List (String × FSTree)),
    wf_entries es = true → ((filesOf es).map FileEntry.path).Nodup := by
  intro es
  induction es using gafed_entries.induct with
  | case1 => intro _; simp [filesOf]
  | case2 n fm fc cont rest ih =>
      intro hwf
      simp only [wf_entries, Bool.and_eq_true] at hwf
      simp only [filesOf, List.map_cons]
      rw [List.nodup_cons]
      refine ⟨?_, ih hwf.2⟩
      intro hmem
      obtain ⟨fe, hfe, hpe⟩ := List.mem_map.mp hmem
      obtain ⟨n2, r2, hp, hn2⟩ := filesOf_path_head rest fe hfe
      rw [hp] at hpe
      have hn2n : n2 = n := by
        have := List.cons.injEq n2 r2 n []
        rw [this] at hpe
        exact hpe.1
      obtain ⟨e2, he2, he2n⟩ := List.mem_map.mp hn2
      have hall := List.all_eq_true.mp hwf.1 e2 he2
      simp only [Bool.not_eq_true', beq_eq_false_iff_ne] at hall
      exact hall (by rw [he2n, hn2n])
  | case3 n dm des rest ih1 ih2 =>
      intro hwf
      simp only [wf_entries, Bool.and_eq_true] at hwf
      simp only [filesOf, List.map_append, List.map_map]
      rw [List.nodup_append]
      refine ⟨?_, ih2 hwf.2, ?_⟩
      · have hinj : Function.Injective (fun q : List String => n :: q) := by
          intro a b hab
          simpa using hab
        have := (ih1 hwf.1.2).map (f := fun q : List String => n :: q) hinj
        simpa [Function.comp_def] using this
      · intro a ha hb
        simp only [List.mem_map, Function.comp_def] at ha
        obtain ⟨fe, hfe, rfl⟩ := ha
        obtain ⟨fe2, hfe2, hpe⟩ := List.mem_map.mp hb
        obtain ⟨n2, r2, hp, hn2⟩ := filesOf_path_head rest fe2 hfe2
        rw [hp] at hpe
        have hn2n : n2 = n := by
          have := (List.cons.injEq n2 r2 n fe.path).mp hpe
          exact this.1
        obtain ⟨e2, he2, he2n⟩ := List.mem_map.mp hn2
        have hall := List.all_eq_true.mp hwf.1.1 e2 he2
        simp only [Bool.not_eq_true', beq_eq_false_iff_ne] at hall
        exact hall (by rw [he2n, hn2n])

theorem filesOf_foldl_os_remove : ∀ (ds : List FileEntry) (es : List (String × FSTree)),
    filesOf (ds.foldl (fun acc e => os_remove acc e.path) es)
      = (filesOf es).filter (fun fe => decide (∀ d ∈ ds, fe.path ≠ d.path)) := by
  intro ds
  induction ds with
  | nil =>
      intro es
      simp
  | cons d ds ih =>
      intro es
      rw [List.foldl_cons, ih (os_remove es d.path), filesOf_os_remove es d.path,
        List.filter_filter]
      apply List.filter_congr
      intro fe hfe
      simp [List.forall_mem_cons, Bool.and_comm]


theorem filter_not_in_take_eq_drop (l : List FileEntry) (n : Nat)
    (hnodup : (l.map FileEntry.path).Nodup) :
    l.filter (fun fe => decide (∀ d ∈ l.take n, fe.path ≠ d.path)) = l.drop n := by
  set tk := l.take n with htk
  set dr := l.drop n with hdr
  have hsplit : tk ++ dr = l := List.take_append_drop n l
  rw [← hsplit, List.filter_append]
  rw [← hsplit, List.map_append, List.nodup_append] at hnodup
  have h1 : tk.filter (fun fe => decide (∀ d ∈ tk, fe.path ≠ d.path)) = [] := by
    apply List.filter_eq_nil_iff.mpr
    intro a ha
    simp only [decide_eq_true_eq, not_forall]
    exact ⟨a, ha, by simp⟩
  have h2 : dr.filter (fun fe => decide (∀ d ∈ tk, fe.path ≠ d.path)) = dr := by
    apply List.filter_eq_self.mpr
    intro a ha
    simp only [decide_eq_true_eq]
    intro d hd had
    exact hnodup.2.2 (List.mem_map_of_mem FileEntry.path hd)
      (had ▸ List.mem_map_of_mem FileEntry.path ha)
  rw [h1, h2]
  simp

theorem sweep_result_files_perm (m : Int) (es : List (String × FSTree))
    (keep_max : Nat) (r : Int × List (String × FSTree))
    (hwf : wf_entries es = true)
    (hr : check_and_delete_sweep m es keep_max = some r) :
    (filesOf r.2).Perm
      (((filesOf es).insertionSort entry_mtime_le).drop
        ((filesOf es).length - keep_max)) := by
  have hperm : ((filesOf es).insertionSort entry_mtime_le).Perm (filesOf es) :=
    List.perm_insertionSort entry_mtime_le (filesOf es)
  simp only [check_and_delete_sweep, get_all_file_entries_delete_empty_dirs] at hr
  by_cases hlen : es.length = 0
  · simp [hlen] at hr
  · simp only [hlen, if_false] at hr
    rw [gafed_entries_fst es] at hr
    by_cases hdiff : ((filesOf es).length : Int) - (keep_max : Int) > 0
    · simp only [hdiff, if_true] at hr
      have hreq := (Option.some.inj hr).symm
      subst hreq
      simp only [Int.toNat_sub]
      rw [filesOf_foldl_os_remove, filesOf_gafed_snd]
      have hnodup : (((filesOf es).insertionSort entry_mtime_le).map
          FileEntry.path).Nodup :=
        ((hperm.map FileEntry.path).nodup_iff).mpr (wf_filesOf_paths_nodup es hwf)
      have hkey := filter_not_in_take_eq_drop
        ((filesOf es).insertionSort entry_mtime_le)
        ((filesOf es).length - keep_max) hnodup
      refine ((hperm.filter _).symm).trans ?_
      rw [hkey]
    · simp only [hdiff, if_false] at hr
      have hreq := (Option.some.inj hr).symm
      subst hreq
      rw [filesOf_gafed_snd]
      have hn0 : (filesOf es).length - keep_max = 0 := by omega
      rw [hn0, List.drop_zero]
      exact hperm.symm

/-- C3 (amended): after one sweep with ceiling `keep_max`, the number
of files remaining under the root is at most `keep_max`, and eviction
is oldest-by-modification-time first: every file removed by the sweep
has mtime no greater than every file it preserves (so with distinct
mtimes the `keep_max` most-recently-modified files survive).  The
claim's third part — no directory with zero entries remains — is false
and is dropped: only directories already empty when the collection
pass visits them are deleted; a directory emptied by the sweep itself
(its last file evicted, or its only entries being empty subdirectories
that the pass removed) remains until a later sweep
(`sweep_leaves_empty_directory`). -/
theorem sweep_count_bounded_and_evicts_oldest (m : Int)
    (es : List (String × FSTree)) (keep_max : Nat)
    (r : Int × List (String × FSTree))
    (hwf : wf_entries es = true)
    (hr : check_and_delete_sweep m es keep_max = some r) :
    (filesOf r.2).length ≤ keep_max ∧
    (∀ d ∈ filesOf es, d ∉ filesOf r.2 →
      ∀ k ∈ filesOf r.2, d.mtime ≤ k.mtime) := by
  have hperm2 := sweep_result_files_perm m es keep_max r hwf hr
  have hperm : ((filesOf es).insertionSort entry_mtime_le).Perm (filesOf es) :=
    List.perm_insertionSort entry_mtime_le (filesOf es)
  have hlen := hperm.length_eq
  constructor
  · have h1 := hperm2.length_eq
    rw [List.length_drop] at h1
    omega
  · intro d hd hnot k hk
    have hkdrop := hperm2.mem_iff.mp hk
    have hdnot : d ∉ ((filesOf es).insertionSort entry_mtime_le).drop
        ((filesOf es).length - keep_max) :=
      fun hmem => hnot (hperm2.mem_iff.mpr hmem)
    have hdsorted : d ∈ (filesOf es).insertionSort entry_mtime_le :=
      hperm.mem_iff.mpr hd
    rw [← List.take_append_drop ((filesOf es).length - keep_max)
      ((filesOf es).insertionSort entry_mtime_le)] at hdsorted
    have hdtake : d ∈ ((filesOf es).insertionSort entry_mtime_le).take
        ((filesOf es).length - keep_max) := by
      rcases List.mem_append.mp hdsorted with h | h
      · exact h
      · exact absurd h hdnot
    have hsorted := List.sorted_insertionSort entry_mtime_le (filesOf es)
    rw [← List.take_append_drop ((filesOf es).length - keep_max)
      ((filesOf es).insertionSort entry_mtime_le)] at hsorted
    exact (List.pairwise_append.mp hsorted).2.2 d hdtake k hkdrop

/-- C3 counterexample: sweeping a source whose only old file lives in
directory `d`, with ceiling 1, deletes `d/old` (the oldest file) but
leaves the now-empty directory `d` in place — a directory with zero
entries remains under the root after the sweep. -/
theorem sweep_leaves_empty_directory :
    check_and_delete_sweep 0 sweep_demo_source 1
      = some (0, [("d", FSTree.dir 0 []), ("new", FSTree.file 10 10 [8])]) ∧
    hasEmptyDirUnder [("d", FSTree.dir 0 []), ("new", FSTree.file 10 10 [8])]
      = true := by
  constructor
  · simp [check_and_delete_sweep, get_all_file_entries_delete_empty_dirs,
      gafed_entries, sweep_demo_source, List.insertionSort, List.orderedInsert,
      entry_mtime_le, os_remove, FSTree.isDir]
  · simp [hasEmptyDirUnder]

/-- C3 witness: the amended theorem applied to the concrete sweep of
`sweep_demo_source` with ceiling 1: at most one file survives. -/
theorem sweep_count_bounded_witness :
    (filesOf [("d", FSTree.dir 0 []), ("new", FSTree.file 10 10 [8])]).length
      ≤ 1 := by
  have h := sweep_count_bounded_and_evicts_oldest 0 sweep_demo_source 1
    (0, [("d", FSTree.dir 0 []), ("new", FSTree.file 10 10 [8])])
    (by simp [wf_entries, sweep_demo_source])
    (by simp [check_and_delete_sweep, get_all_file_entries_delete_empty_dirs,
      gafed_entries, sweep_demo_source, List.insertionSort, List.orderedInsert,
      entry_mtime_le, os_remove, FSTree.isDir])
  exact h.1
